import Mathlib

/-!
# Verification of the bpftrace LLVM code generator (src/ast/codegen_llvm.cpp)

This file shallowly embeds the parts of `CodegenLLVM` that the claims talk
about and proves or refutes each claim.

The program under verification is a *code generator*: its input is a typed
AST and its output is LLVM IR.  We therefore embed two things:

* a tiny IR language (`Instr`, `Term`, `Blk`) mirroring the calls the
  generator makes on the `IRBuilderBPF` facade (`CreateAllocaBPF`,
  `CreateLifetimeEnd`, `CreateMapUpdateElem`, `CreatePerfEventOutput`,
  `CreateCondBr`, ...), together with an executable control-flow semantics
  (`execBlocks` / `execInstrs`) used to talk about "every control-flow
  path" and "the executed path";

* the 64-bit machine arithmetic that the generated IR performs
  (`wrap64`, `toSigned64`, `intCast64`, ...), used for the value-level
  claims about `min`, the `linear` helper and integer binops.

Each generator fragment (the `min` branch of `visit(Call&)`, the
`createLogicalAnd` / `createLogicalOr` helpers, the `exit` branch, the
`strftime` branch, `createLinearFunction`, the integer branch of
`visit(Binop&)`, `getNextIndexForProbe` / `getSectionNameForProbe`,
the id-reset logic of `visit(Probe&)` and the variable-slot handling of
`generateProbe` / `visit(AssignVarStatement&)`) is translated one-for-one
below, with comments citing the C++ lines it comes from.
-/

namespace BpftraceGen

/-! ## 64-bit machine arithmetic

LLVM `i64` values are modelled as `Nat` bit patterns `< 2^64`; signed
predicates go through `toSigned64`. -/

/-- Reduce an integer to its 64-bit bit pattern (wrapping semantics of
LLVM `add`/`sub`/`mul` on `i64`). -/
def wrap64 (z : Int) : Nat := (z % (2 ^ 64 : Int)).toNat

/-- Signed reading of a 64-bit bit pattern. -/
def toSigned64 (n : Nat) : Int := if n < 2 ^ 63 then (n : Int) else (n : Int) - 2 ^ 64

/-- Signed reading of a `w`-bit bit pattern. -/
def toSignedW (w : Nat) (v : Nat) : Int :=
  if v < 2 ^ (w - 1) then (v : Int) else (v : Int) - 2 ^ w

/-- `IRBuilder::CreateIntCast(v, Int64Ty, signed)` on a `w`-bit pattern `v`:
sign-extend when `signed`, zero-extend otherwise (`w ≤ 64`). -/
def intCast64 (signed : Bool) (w : Nat) (v : Nat) : Nat :=
  if signed then wrap64 (toSignedW w v) else v

/-- Wrapping 64-bit subtraction (`CreateSub` on `i64`). -/
def sub64 (a b : Nat) : Nat := wrap64 ((a : Int) - (b : Int))

/-- Wrapping 64-bit addition (`CreateAdd` on `i64`). -/
def add64 (a b : Nat) : Nat := (a + b) % 2 ^ 64

/-- Unsigned 64-bit division (`CreateUDiv`). -/
def udiv64 (a b : Nat) : Nat := a / b

/-- Signed greater-or-equal on 64-bit patterns (`CreateICmpSGE`). -/
def sge64 (a b : Nat) : Bool := decide (toSigned64 b ≤ toSigned64 a)

/-- Signed less-than on 64-bit patterns (`CreateICmpSLT`). -/
def slt64 (a b : Nat) : Bool := decide (toSigned64 a < toSigned64 b)

/-- Signed greater-than on 64-bit patterns (`CreateICmpSGT`). -/
def sgt64 (a b : Nat) : Bool := decide (toSigned64 b < toSigned64 a)

/-! ## A small IR language

Instructions record the `IRBuilderBPF` calls the generator emits; stack
slots are numbered in order of allocation inside the modelled fragment.
`Instr.code t` stands for the whole instruction sequence produced by
recursively lowering a subexpression (opaque to the fragment being
modelled).  `Instr.storeSym` stores a value that the fragment computed
but whose bits are not tracked structurally (named by a string). -/

inductive Instr where
  | alloca (slot : Nat)
  | allocaInit (slot : Nat)
  | lifetimeEnd (slot : Nat)
  | storeImm (slot field v : Nat)
  | storeSym (slot field : Nat) (sym : String)
  | mapLookup (key : Nat)
  | mapUpdate (key val : Nat)
  | perfOutput (slot size : Nat)
  | loadSlot (slot : Nat)
  | code (tag : Nat)
deriving DecidableEq, Repr

/-- Block terminators.  `condBr c t f` branches on runtime condition
number `c` (resolved by an environment at execution time). -/
inductive Term where
  | condBr (c : Nat) (t f : Nat)
  | br (b : Nat)
  | ret (v : Nat)
  | halt
deriving DecidableEq, Repr

structure Blk where
  instrs : List Instr
  term : Term
deriving DecidableEq, Repr

abbrev Cfg := List Blk

/-- Successor blocks of a terminator (used for reachability statements). -/
def Term.targets : Term → List Nat
  | .condBr _ t f => [t, f]
  | .br b => [b]
  | .ret _ => []
  | .halt => []

/-- The sequence of block indices visited when executing `cfg` from block
`i`, with runtime conditions given by `env`.  `fuel` bounds the walk; all
CFGs in this file are acyclic and are run with ample fuel. -/
def execBlocks (cfg : Cfg) (env : Nat → Bool) : Nat → Nat → List Nat
  | 0, _ => []
  | fuel + 1, i =>
    match cfg.get? i with
    | none => []
    | some b =>
      i :: (match b.term with
        | .condBr c t f => execBlocks cfg env fuel (if env c then t else f)
        | .br n => execBlocks cfg env fuel n
        | .ret _ => []
        | .halt => [])

/-- The instructions lying on the executed path. -/
def execInstrs (cfg : Cfg) (env : Nat → Bool) (fuel start : Nat) : List Instr :=
  (execBlocks cfg env fuel start).flatMap fun i =>
    match cfg.get? i with
    | none => []
    | some b => b.instrs

/-! ## The synthesized `linear` helper (C3)

`CodegenLLVM::createLinearFunction` (codegen_llvm.cpp:2349-2437) emits:

    entry:  spill the four i64 arguments; `CreateICmpSLT(val, min)`;
            branch to lhist.lt_min / lhist.ge_min
    lhist.lt_min:  ret 0
    lhist.ge_min:  `CreateICmpSGT(val, max)`; branch gt_max / le_max
    lhist.gt_max:  ret CreateAdd(CreateUDiv(CreateSub(max, min), step), 1)
    lhist.le_max:  ret CreateAdd(CreateUDiv(CreateSub(val, min), step), 1)

The alloca cells only spill the arguments (each is stored once in the
entry block and only loaded afterwards), so the function below folds the
loads away and keeps the exact operations and their order. -/

def linearFunc (value vmin vmax step : Nat) : Nat :=
  if slt64 value vmin then 0
  else if sgt64 value vmax then add64 (udiv64 (sub64 vmax vmin) step) 1
  else add64 (udiv64 (sub64 value vmin) step) 1

/-- Modelled from the claim text of C3 ("all arithmetic in the helper,
including the two range comparisons, is unsigned"): same bucket formula
but with *unsigned* range comparisons. -/
def linearClaimSpec (value vmin vmax step : Nat) : Nat :=
  if value < vmin then 0
  else if vmax < value then add64 (udiv64 (sub64 vmax vmin) step) 1
  else add64 (udiv64 (sub64 value vmin) step) 1

/-! ## The `min` aggregation (C1), codegen_llvm.cpp:343-372

    key := getMapKey(map)                 -- alloca (slot 0) + key code
    oldval := CreateMapLookupElem(key)
    newval := CreateAllocaBPF(...)        -- slot 1
    accept(value argument)                -- opaque code
    expr := CreateIntCast(expr, i64, source signedness)
    inverted := CreateSub(0xffffffff, expr)
    CondBr (CreateICmpSGE(inverted, oldval)) min.ge min.lt
    min.ge: store inverted newval; CreateMapUpdateElem; br min.lt
    min.lt: lifetime-end key; lifetime-end newval
-/

/-- CFG of the `min` lowering.  Block 0 = current block, 1 = `min.ge`,
2 = `min.lt`.  Condition 0 is the `ICmpSGE(inverted, oldval)` compare. -/
def minCfg : Cfg :=
  [ ⟨[Instr.alloca 0, Instr.code 0, Instr.mapLookup 0, Instr.alloca 1, Instr.code 1],
      Term.condBr 0 1 2⟩,
    ⟨[Instr.storeSym 1 0 "inverted", Instr.mapUpdate 0 1], Term.br 2⟩,
    ⟨[Instr.lifetimeEnd 0, Instr.lifetimeEnd 1], Term.halt⟩ ]

/-- `CreateSub(b_.getInt64(0xffffffff), expr_)` on the promoted value. -/
def minInverted (v : Nat) : Nat := sub64 0xffffffff v

/-- Promotion of the `min` argument: `CreateIntCast(expr_, Int64Ty,
call.vargs front type IsSigned)`. -/
def minPromote (srcSigned : Bool) (srcWidth : Nat) (raw : Nat) : Nat :=
  intCast64 srcSigned srcWidth raw

/-- Runtime environment for `minCfg`: the single condition is
`ICmpSGE(inverted, oldval)`. -/
def minEnv (v old : Nat) : Nat → Bool := fun _ => sge64 (minInverted v) old

/-- Instructions on the executed path of the `min` lowering, for promoted
value `v` and looked-up old slot value `old` (0 for an uninitialized
slot). -/
def minExec (v old : Nat) : List Instr := execInstrs minCfg (minEnv v old) 8 0

/-! ## Logical `&&` / `||` (C2, C7), codegen_llvm.cpp:2198-2274

Blocks for `createLogicalAnd`: 0 = current (allocates the `&&_result`
slot, then lowers the left operand), 1 = `&&_lhs_true` (lowers the right
operand), 2 = `&&_true`, 3 = `&&_false`, 4 = `&&_merge`.
Condition 0 is `lhs != 0`, condition 1 is `rhs != 0`. -/

def andCfg (lhsCode rhsCode : List Instr) : Cfg :=
  [ ⟨Instr.alloca 0 :: lhsCode, Term.condBr 0 1 3⟩,
    ⟨rhsCode, Term.condBr 1 2 3⟩,
    ⟨[Instr.storeImm 0 0 1], Term.br 4⟩,
    ⟨[Instr.storeImm 0 0 0], Term.br 4⟩,
    ⟨[Instr.loadSlot 0], Term.halt⟩ ]

/-- Blocks for `createLogicalOr`: 0 = current, 1 = `||_lhs_false` (lowers
the right operand), 2 = `||_true`, 3 = `||_false`, 4 = `||_merge`. -/
def orCfg (lhsCode rhsCode : List Instr) : Cfg :=
  [ ⟨Instr.alloca 0 :: lhsCode, Term.condBr 0 2 1⟩,
    ⟨rhsCode, Term.condBr 1 2 3⟩,
    ⟨[Instr.storeImm 0 0 1], Term.br 4⟩,
    ⟨[Instr.storeImm 0 0 0], Term.br 4⟩,
    ⟨[Instr.loadSlot 0], Term.halt⟩ ]

/-- Runtime conditions for the two CFGs above, from the 64-bit values of
the two operands. -/
def boolEnv (l r : Nat) : Nat → Bool := fun i => if i = 0 then l != 0 else r != 0

/-- The same environment with the two condition outcomes given directly
as booleans (`boolEnv l r = envB (l != 0) (r != 0)`). -/
def envB (b1 b2 : Bool) : Nat → Bool := fun i => if i = 0 then b1 else b2

/-! ## The `exit()` call (C8), codegen_llvm.cpp:803-824 -/

/-- `exitCfg rest`: block 0 is the current block after lowering `exit()`
(single-u64 perfdata record, perf output of 8 bytes, `ret 0`); block 1 is
the freshly created `deadcode` block, which receives the instructions
`rest` lowered after the `exit()` statement and is targeted by no branch. -/
def exitCfg (rest : List Instr) : Cfg :=
  [ ⟨[Instr.alloca 0,
      Instr.storeSym 0 0 "asyncaction_exit",
      Instr.perfOutput 0 8,
      Instr.lifetimeEnd 0], Term.ret 0⟩,
    ⟨rest, Term.halt⟩ ]

/-! ## The `strftime` call (C4), codegen_llvm.cpp:884-900 -/

/-- `true` iff the instruction list contains a `CreatePerfEventOutput`. -/
def callsPerfOutput (l : List Instr) : Bool :=
  l.any fun i => match i with
    | Instr.perfOutput _ _ => true
    | _ => false

/-- The `strftime` branch: allocate the `strftime_args` struct (slot 0),
store `strftime_id_` at field 0, bump the id, lower the `ts` argument
(`tsCode`), store it at field 1, and leave `expr_ = buf`.
Returns (instructions, new `strftime_id_`, result slot). -/
def strftimeEmit (strftimeId : Nat) (tsCode : List Instr) :
    List Instr × Nat × Nat :=
  ([Instr.alloca 0, Instr.storeImm 0 0 strftimeId]
     ++ tsCode
     ++ [Instr.storeSym 0 1 "ts"],
   strftimeId + 1, 0)

/-! ## Integer binary operations (C6), codegen_llvm.cpp:1121-1178 -/

def b2n (b : Bool) : Nat := if b then 1 else 0

def sle64 (a b : Nat) : Bool := decide (toSigned64 a ≤ toSigned64 b)
def ule64 (a b : Nat) : Bool := decide (a ≤ b)
def uge64 (a b : Nat) : Bool := decide (b ≤ a)
def ult64 (a b : Nat) : Bool := decide (a < b)
def ugt64 (a b : Nat) : Bool := decide (b < a)
def shl64 (a b : Nat) : Nat := (a <<< b) % 2 ^ 64
def lshr64 (a b : Nat) : Nat := a >>> b
def mul64 (a b : Nat) : Nat := (a * b) % 2 ^ 64
def urem64 (a b : Nat) : Nat := a % b

inductive BinOp where
  | eq | ne | le | ge | lt | gt | left | right
  | plus | minus | mul | div | mod | band | bor | bxor
deriving DecidableEq, Repr

/-- A typed integer operand: its SizedType signedness and bit width, and
its value as a bit pattern. -/
structure Operand where
  signed : Bool
  width : Nat
  bits : Nat
deriving DecidableEq, Repr

/-- The integer branch of `visit(Binop&)`: promote both sides to 64 bits
with each side's own signedness, pick the compare variant from
`lsign && rsign`, lower `%` as `CreateURem` unconditionally, `/` as
`CreateUDiv`, and finally `CreateIntCast(expr_, Int64Ty, false)`
(zero-extension, a no-op on the already-64-bit arithmetic results and a
zero-extension of the `i1` compare results). -/
def binopLower (op : BinOp) (l r : Operand) : Nat :=
  let lhs := intCast64 l.signed l.width l.bits
  let rhs := intCast64 r.signed r.width r.bits
  let ds := l.signed && r.signed
  match op with
  | .eq => b2n (lhs == rhs)
  | .ne => b2n (lhs != rhs)
  | .le => b2n (if ds then sle64 lhs rhs else ule64 lhs rhs)
  | .ge => b2n (if ds then sge64 lhs rhs else uge64 lhs rhs)
  | .lt => b2n (if ds then slt64 lhs rhs else ult64 lhs rhs)
  | .gt => b2n (if ds then sgt64 lhs rhs else ugt64 lhs rhs)
  | .left => shl64 lhs rhs
  | .right => lshr64 lhs rhs
  | .plus => add64 lhs rhs
  | .minus => sub64 lhs rhs
  | .mul => mul64 lhs rhs
  | .div => udiv64 lhs rhs
  | .mod => urem64 lhs rhs
  | .band => lhs &&& rhs
  | .bor => lhs ||| rhs
  | .bxor => lhs ^^^ rhs

/-- Modelled from the claim text of C6: each operand promoted to 64 bits
with its own signedness; the ordered comparisons compare the signed
readings exactly when both operand types are signed and the unsigned
readings otherwise, yielding 0 or 1; modulo is the unsigned remainder
even for signed operands; every result is a zero-extended 64-bit
pattern. -/
def binopClaimSpec (op : BinOp) (l r : Operand) : Nat :=
  let lhs := intCast64 l.signed l.width l.bits
  let rhs := intCast64 r.signed r.width r.bits
  match op with
  | .eq => if lhs = rhs then 1 else 0
  | .ne => if lhs = rhs then 0 else 1
  | .le =>
    if l.signed && r.signed then
      if toSigned64 lhs ≤ toSigned64 rhs then 1 else 0
    else if lhs ≤ rhs then 1 else 0
  | .ge =>
    if l.signed && r.signed then
      if toSigned64 rhs ≤ toSigned64 lhs then 1 else 0
    else if rhs ≤ lhs then 1 else 0
  | .lt =>
    if l.signed && r.signed then
      if toSigned64 lhs < toSigned64 rhs then 1 else 0
    else if lhs < rhs then 1 else 0
  | .gt =>
    if l.signed && r.signed then
      if toSigned64 rhs < toSigned64 lhs then 1 else 0
    else if rhs < lhs then 1 else 0
  | .left => shl64 lhs rhs
  | .right => lshr64 lhs rhs
  | .plus => add64 lhs rhs
  | .minus => sub64 lhs rhs
  | .mul => mul64 lhs rhs
  | .div => udiv64 lhs rhs
  | .mod => urem64 lhs rhs
  | .band => lhs &&& rhs
  | .bor => lhs ||| rhs
  | .bxor => lhs ^^^ rhs

/-- The ops whose LLVM result type is `i1` (compare results). -/
def BinOp.isCompare : BinOp → Bool
  | .eq | .ne | .le | .ge | .lt | .gt => true
  | _ => false

/-! ## Per-probe id reset during wildcard expansion (C5),
codegen_llvm.cpp:1969-2003 and 2037-2047 -/

/-- The eight per-probe counters saved and restored around wildcard
match iteration. -/
structure Counters where
  printfId : Nat
  catId : Nat
  systemId : Nat
  timeId : Nat
  strftimeId : Nat
  joinId : Nat
  helperErrorId : Nat
  nonMapPrintId : Nat
deriving DecidableEq, Repr

/-- `reset_ids()` (1978-1987): overwrite the current counters with the
eight starting values captured before the expansion loop. -/
def resetIds (snap _c : Counters) : Counters :=
  { printfId := snap.printfId
    catId := snap.catId
    systemId := snap.systemId
    timeId := snap.timeId
    strftimeId := snap.strftimeId
    joinId := snap.joinId
    helperErrorId := snap.helperErrorId
    nonMapPrintId := snap.nonMapPrintId }

/-- A concrete wildcard match: either a plain probe match or a USDT match
fanning out over `numLocations` locations. -/
inductive MatchSpec where
  | plain
  | usdt (numLocations : Nat)
deriving DecidableEq, Repr

/-- The USDT location loop (2037-2047): for each location, `reset_ids()`
then `generateProbe`.  `gen` is the (arbitrary) effect of one program
generation on the counters; the returned list records the counter state
at the entry of each `generateProbe` call. -/
def runUsdtLocations (gen : Counters → Counters) (snap : Counters) :
    Nat → Counters → Counters × List Counters
  | 0, c => (c, [])
  | n + 1, c =>
      let c1 := resetIds snap c
      let rest := runUsdtLocations gen snap n (gen c1)
      (rest.1, c1 :: rest.2)

/-- One iteration of the match loop (2001-2076): `reset_ids()` at the
top, then either the USDT location fan-out or a single `generateProbe`. -/
def runMatch (gen : Counters → Counters) (snap c : Counters) :
    MatchSpec → Counters × List Counters
  | .plain =>
      let c1 := resetIds snap c
      (gen c1, [c1])
  | .usdt n =>
      let c1 := resetIds snap c
      runUsdtLocations gen snap n c1

def runMatches (gen : Counters → Counters) (snap : Counters) :
    Counters → List MatchSpec → Counters × List Counters
  | c, [] => (c, [])
  | c, m :: ms =>
      let r1 := runMatch gen snap c m
      let r2 := runMatches gen snap r1.1 ms
      (r2.1, r1.2 ++ r2.2)

/-- The attach-point loop (1989-2077). -/
def runAttachPoints (gen : Counters → Counters) (snap : Counters) :
    Counters → List (List MatchSpec) → Counters × List Counters
  | c, [] => (c, [])
  | c, ms :: rest =>
      let r1 := runMatches gen snap c ms
      let r2 := runAttachPoints gen snap r1.1 rest
      (r2.1, r1.2 ++ r2.2)

/-- The expansion branch of `visit(Probe&)`: snapshot the counters
(1969-1976), then iterate all matches of all attach points.  `aps` gives
the match list of each attach point; the returned list records the
counter state at the entry of every `generateProbe` call. -/
def runProbeExpansion (gen : Counters → Counters) (c0 : Counters)
    (aps : List (List MatchSpec)) : Counters × List Counters :=
  runAttachPoints gen c0 c0 aps

/-! ## Section naming (C9), codegen_llvm.cpp:2089-2099 and 1911-1918 -/

/-- Association-list lookup (`std::map` access). -/
def alookup : List (String × Nat) → String → Option Nat
  | [], _ => none
  | (y, v) :: rest, x => if y = x then some v else alookup rest x

/-- Association-list update. -/
def aset : List (String × Nat) → String → Nat → List (String × Nat)
  | [], x, n => [(x, n)]
  | (y, v) :: rest, x, n =>
      if y = x then (x, n) :: rest else (y, v) :: aset rest x n

/-- `next_probe_index_`. -/
abbrev IndexMap := List (String × Nat)

/-- `getNextIndexForProbe` (2089-2095): if the probe name has no entry
yet, set it to 1; return the current entry and post-increment it. -/
def getNextIndexForProbe (m : IndexMap) (name : String) : Nat × IndexMap :=
  let m1 := match alookup m name with
    | none => aset m name 1
    | some _ => m
  let index := (alookup m1 name).getD 0
  (index, aset m1 name (index + 1))

/-- `getSectionNameForProbe` (2097-2099). -/
def getSectionNameForProbe (probeName : String) (index : Nat) : String :=
  "s_" ++ probeName ++ "_" ++ toString index

/-- The section assignment of `generateProbe` (1911-1918): the index is
drawn from the counter keyed by `probe.name()`; the section string is
built from the (possibly `_loc<i>`-suffixed) resolved section name. -/
def generateProbeSection (m : IndexMap) (probeName sectionName : String) :
    String × IndexMap :=
  let (i, m1) := getNextIndexForProbe m probeName
  (getSectionNameForProbe sectionName i, m1)

/-- Run a sequence of program generations; each call is a pair
(probe name used as counter key, resolved section base name). -/
def runSections (m : IndexMap) : List (String × String) → List String × IndexMap
  | [] => ([], m)
  | (pn, sn) :: rest =>
      let r1 := generateProbeSection m pn sn
      let r2 := runSections r1.2 rest
      (r1.1 :: r2.1, r2.2)

/-- Number of generations under the same probe name in a call list. -/
def countName (calls : List (String × String)) (name : String) : Nat :=
  (calls.filter fun c => c.1 == name).length

/-- Invariant tying `next_probe_index_` to the number of programs already
generated under each probe name. -/
def SecInv (m : IndexMap) (cnt : String → Nat) : Prop :=
  ∀ name, alookup m name = if cnt name = 0 then none else some (cnt name + 1)

/-! ## Variable slots (C10, and part of C2),
codegen_llvm.cpp:1901-1934 (generateProbe), 1707-1727
(AssignVarStatement), 1011-1021 (Variable) -/

/-- `variables_ : ident → stack slot`. -/
abbrev VarTable := List (String × Nat)

/-- Generator state for the variable model: the variable table and the
next fresh stack-slot number (allocas are distinct values, so slots are
numbered globally in allocation order). -/
structure GenSt where
  vars : VarTable
  fresh : Nat
deriving DecidableEq, Repr

/-- `visit(AssignVarStatement&)`: lower the right-hand side (`rhsCode`),
then on first assignment `CreateAllocaBPFInit` a fresh slot and record
it in `variables_`; in all cases store (or memcpy) into the slot. -/
def assignVar (s : GenSt) (x : String) (rhsCode : List Instr) :
    GenSt × List Instr :=
  match alookup s.vars x with
  | none =>
      (⟨(x, s.fresh) :: s.vars, s.fresh + 1⟩,
        rhsCode ++ [Instr.allocaInit s.fresh, Instr.storeSym s.fresh 0 "expr"])
  | some v => (s, rhsCode ++ [Instr.storeSym v 0 "expr"])

/-- `visit(Variable&)`: reference the recorded slot (a load for register
types, slot-address propagation for composite types; either way the
program uses exactly that slot).  An absent entry emits nothing (the
semantic analyser rejects reads of unassigned variables). -/
def readVar (s : GenSt) (x : String) : List Instr :=
  match alookup s.vars x with
  | none => []
  | some v => [Instr.loadSlot v]

/-- The variable-relevant operations of a lowered statement sequence. -/
inductive VarOp where
  | assign (x : String)
  | read (x : String)
deriving DecidableEq, Repr

def runVarOp (s : GenSt) : VarOp → GenSt × List Instr
  | .assign x => assignVar s x []
  | .read x => (s, readVar s x)

def runVarOps (s : GenSt) : List VarOp → GenSt × List Instr
  | [] => (s, [])
  | op :: rest =>
      let (s1, is1) := runVarOp s op
      let (s2, is2) := runVarOps s1 rest
      (s2, is1 ++ is2)

/-- A probe body as seen by the variable model: the variable operations
performed while lowering the predicate and those of the body. -/
structure ProbeAst where
  predOps : List VarOp
  bodyOps : List VarOp
deriving DecidableEq, Repr

/-- `generateProbe` (1901-1934): lower the predicate, then
`variables_.clear()`, then lower the body statements. -/
def generateProbeVars (s : GenSt) (p : ProbeAst) : GenSt × List Instr :=
  let (s1, predIs) := runVarOps s p.predOps
  let (s3, bodyIs) := runVarOps ⟨[], s1.fresh⟩ p.bodyOps
  (s3, predIs ++ bodyIs)

/-- Emit one program per entry of `progs` (one per wildcard match /
USDT location), threading the generator state. -/
def generateProgramsVars (s : GenSt) : List ProbeAst → GenSt × List (List Instr)
  | [] => (s, [])
  | p :: ps =>
      let (s1, is1) := generateProbeVars s p
      let (s2, iss) := generateProgramsVars s1 ps
      (s2, is1 :: iss)

/-- Stack slots mentioned by an instruction. -/
def Instr.slots : Instr → List Nat
  | .alloca s => [s]
  | .allocaInit s => [s]
  | .lifetimeEnd s => [s]
  | .storeImm s _ _ => [s]
  | .storeSym s _ _ => [s]
  | .mapLookup k => [k]
  | .mapUpdate k v => [k, v]
  | .perfOutput s _ => [s]
  | .loadSlot s => [s]
  | .code _ => []

def slotsOf (l : List Instr) : List Nat := l.flatMap Instr.slots

/-- Invariant for the variable model: every slot recorded in
`variables_` lies in the window `[lo, fresh)`. -/
def TableBelow (lo : Nat) (s : GenSt) : Prop :=
  ∀ x v, alookup s.vars x = some v → lo ≤ v ∧ v < s.fresh

/-! ## Arithmetic helper lemmas -/

theorem toSigned64_of_lt {n : Nat} (h : n < 2 ^ 63) : toSigned64 n = n :=
  if_pos h

theorem toSigned64_of_ge {n : Nat} (h : 2 ^ 63 ≤ n) :
    toSigned64 n = (n : Int) - 2 ^ 64 :=
  if_neg (Nat.not_lt.mpr h)

theorem wrap64_lt (z : Int) : wrap64 z < 2 ^ 64 := by
  unfold wrap64
  have h1 : 0 ≤ z % (2 ^ 64 : Int) := Int.emod_nonneg z (by norm_num)
  have h2 : z % (2 ^ 64 : Int) < 2 ^ 64 := Int.emod_lt_of_pos z (by norm_num)
  omega

theorem sub64_of_le {a b : Nat} (hba : b ≤ a) (ha : a < 2 ^ 64) :
    sub64 a b = a - b := by
  unfold sub64 wrap64
  have h0 : ((a : Int) - b) % (2 ^ 64 : Int) = (a : Int) - b :=
    Int.emod_eq_of_lt (by omega) (by omega)
  rw [h0]; omega

theorem add64_of_lt {a b : Nat} (h : a + b < 2 ^ 64) : add64 a b = a + b :=
  Nat.mod_eq_of_lt h

/-- The executed path of the `min` lowering, by cases on the
`ICmpSGE(inverted, oldval)` outcome. -/
theorem minExec_eq (v old : Nat) :
    minExec v old =
      if sge64 (minInverted v) old then
        [Instr.alloca 0, Instr.code 0, Instr.mapLookup 0, Instr.alloca 1,
         Instr.code 1, Instr.storeSym 1 0 "inverted", Instr.mapUpdate 0 1,
         Instr.lifetimeEnd 0, Instr.lifetimeEnd 1]
      else
        [Instr.alloca 0, Instr.code 0, Instr.mapLookup 0, Instr.alloca 1,
         Instr.code 1, Instr.lifetimeEnd 0, Instr.lifetimeEnd 1] := by
  cases h : sge64 (minInverted v) old
  · have henv : minEnv v old = fun _ => false := by funext i; simp [minEnv, h]
    simp only [minExec, henv]
    rfl
  · have henv : minEnv v old = fun _ => true := by funext i; simp [minEnv, h]
    simp only [minExec, henv]
    rfl

/-! ## C3: the linear bucket helper -/

/-- C3, counterexample: the claim says the two range comparisons are
unsigned, but `createLinearFunction` emits `ICmpSLT` / `ICmpSGT`.  On the
bit pattern `2^64 - 1` (signed −1) with `min=0, max=10, step=1` the
emitted helper returns bucket 0 (signed `-1 < 0`), while the claimed
all-unsigned helper would return the overflow bucket 11. -/
theorem c3_linear_counterexample :
    linearFunc (2 ^ 64 - 1) 0 10 1 = 0
    ∧ linearClaimSpec (2 ^ 64 - 1) 0 10 1 = 11
    ∧ linearFunc (2 ^ 64 - 1) 0 10 1 ≠ linearClaimSpec (2 ^ 64 - 1) 0 10 1 := by
  decide

/-- C3 (amended): the helper computes `value < min → 0`,
`value > max → 1 + (max - min) / step`, otherwise
`1 + (value - min) / step`, where the divisions are unsigned but the two
range comparisons are *signed*: on the nonnegative signed range the
formula holds with plain natural arithmetic, and any value that is
negative as a signed 64-bit integer falls into bucket 0. -/
theorem c3_linear_amended (value vmin vmax step : Nat)
    (hminmax : vmin ≤ vmax) (hmax : vmax < 2 ^ 63) (_hstep : 0 < step) :
    (value < 2 ^ 63 →
      linearFunc value vmin vmax step =
        if value < vmin then 0
        else if vmax < value then (vmax - vmin) / step + 1
        else (value - vmin) / step + 1)
    ∧ (2 ^ 63 ≤ value → value < 2 ^ 64 → linearFunc value vmin vmax step = 0) := by
  have hvmin63 : vmin < 2 ^ 63 := lt_of_le_of_lt hminmax hmax
  constructor
  · intro hv
    unfold linearFunc slt64 sgt64
    rw [toSigned64_of_lt hv, toSigned64_of_lt hvmin63, toSigned64_of_lt hmax]
    by_cases h1 : value < vmin
    · simp [h1]
    · by_cases h2 : vmax < value
      · have hsub : sub64 vmax vmin = vmax - vmin := sub64_of_le hminmax (by omega)
        have hdiv : (vmax - vmin) / step + 1 < 2 ^ 64 := by
          have := Nat.div_le_self (vmax - vmin) step
          omega
        simp [h1, h2, hsub, udiv64, add64_of_lt hdiv]
      · have hsub : sub64 value vmin = value - vmin :=
          sub64_of_le (by omega) (by omega)
        have hdiv : (value - vmin) / step + 1 < 2 ^ 64 := by
          have := Nat.div_le_self (value - vmin) step
          omega
        simp [h1, h2, hsub, udiv64, add64_of_lt hdiv]
  · intro hge hlt
    unfold linearFunc slt64
    rw [toSigned64_of_ge hge, toSigned64_of_lt hvmin63]
    have hneg : (value : Int) - 2 ^ 64 < (vmin : Int) := by
      have h1 : (value : Int) < 2 ^ 64 := by exact_mod_cast hlt
      have h2 : (0 : Int) ≤ (vmin : Int) := Int.natCast_nonneg vmin
      omega
    simp only [decide_eq_true hneg, if_true]

theorem c3_linear_amended_witness :
    linearFunc 5 1 10 2 = 3 ∧ linearFunc (2 ^ 63) 1 10 2 = 0 := by
  constructor
  · have h := (c3_linear_amended 5 1 10 2 (by norm_num) (by norm_num)
      (by norm_num)).1 (by norm_num)
    rw [h]; norm_num
  · exact (c3_linear_amended (2 ^ 63) 1 10 2 (by norm_num) (by norm_num)
      (by norm_num)).2 (by norm_num) (by norm_num)

/-! ## C1: the `min` aggregation -/

/-- C1, counterexample: the claim's consequence "an uninitialized (zero)
slot is always overwritten on the first occurrence" fails for promoted
values above `0xFFFFFFFF`: for an unsigned 64-bit operand with value
`2^32`, `inverted = 0xffffffff - 2^32` wraps to the signed value −1, the
`ICmpSGE(inverted, 0)` compare fails, and no `map_update` is executed on
the first occurrence (old slot value 0). -/
theorem c1_min_counterexample :
    minPromote false 64 (2 ^ 32) = 2 ^ 32
    ∧ Instr.mapUpdate 0 1 ∉ minExec (2 ^ 32) 0 :=
  ⟨rfl, by decide⟩

/-- C1 (amended): the lowering computes `inverted = 0xFFFFFFFF - v` on
the 64-bit-promoted value (the `CreateSub` wraps modulo `2^64`) and
executes the `map_update` of the inverted value if and only if the
signed `>=` compare of `inverted` against the looked-up old value
succeeds.  On an uninitialized (zero) slot the first occurrence is
stored exactly when the inverted value is nonnegative as a signed
64-bit integer; in particular it is always stored when the promoted
value is at most `0xFFFFFFFF`, but not for every larger promoted value
(e.g. not for `2^32`, whose inverted value is the signed −1). -/
theorem c1_min_amended (v old : Nat) (hv : v < 2 ^ 64) (hold : old < 2 ^ 64) :
    ((Instr.mapUpdate 0 1 ∈ minExec v old) ↔ sge64 (minInverted v) old = true)
    ∧ (old = 0 →
        ((Instr.mapUpdate 0 1 ∈ minExec v old) ↔ 0 ≤ toSigned64 (minInverted v)))
    ∧ (old = 0 → v ≤ 0xffffffff → Instr.mapUpdate 0 1 ∈ minExec v old) := by
  have hiff : (Instr.mapUpdate 0 1 ∈ minExec v old)
      ↔ sge64 (minInverted v) old = true := by
    rw [minExec_eq]
    cases h : sge64 (minInverted v) old <;> simp [h]
  refine ⟨hiff, ?_, ?_⟩
  · intro h0
    subst h0
    rw [hiff]
    unfold sge64
    rw [toSigned64_of_lt (by norm_num : (0 : Nat) < 2 ^ 63)]
    simp
  · intro h0 hvv
    subst h0
    have hinv : minInverted v = 0xffffffff - v := sub64_of_le hvv (by norm_num)
    have hsge : sge64 (minInverted v) 0 = true := by
      unfold sge64
      rw [hinv, toSigned64_of_lt (by norm_num : (0 : Nat) < 2 ^ 63),
        toSigned64_of_lt (by omega)]
      simp
    rw [minExec_eq, hsge]
    decide

theorem c1_min_amended_witness :
    Instr.mapUpdate 0 1 ∈ minExec 7 0
    ∧ Instr.mapUpdate 0 1 ∈ minExec (2 ^ 64 - 1) 0 :=
  ⟨(c1_min_amended 7 0 (by norm_num) (by norm_num)).2.2 rfl (by norm_num),
   ((c1_min_amended (2 ^ 64 - 1) 0 (by norm_num) (by norm_num)).2.1 rfl).mpr
     (by decide)⟩

/-! ## C8: the `exit()` call -/

/-- C8: lowering `exit()` emits a single-u64 record holding the exit
action id, outputs it with `perf_event_output` (size 8), immediately
emits `ret 0` as the block terminator, and moves the insertion point to
a freshly created `deadcode` block: the executed path never contains the
statements lowered after the `exit()` (they sit in block 1), and no
terminator in the function targets block 1. -/
theorem c8_exit (rest : List Instr) (env : Nat → Bool) :
    execBlocks (exitCfg rest) env 8 0 = [0]
    ∧ execInstrs (exitCfg rest) env 8 0 =
        [Instr.alloca 0, Instr.storeSym 0 0 "asyncaction_exit",
         Instr.perfOutput 0 8, Instr.lifetimeEnd 0]
    ∧ ((exitCfg rest).get? 0).map Blk.term = some (Term.ret 0)
    ∧ ((exitCfg rest).all fun b => !(b.term.targets.contains 1)) = true
    ∧ (exitCfg rest).get? 1 = some ⟨rest, Term.halt⟩ :=
  ⟨rfl, rfl, rfl, rfl, rfl⟩

/-! ## C7: short-circuit lowering of logical && and || -/

/-- C7: `createLogicalAnd` / `createLogicalOr` produce explicit
short-circuit control flow that stores 0 or 1 into the stack result slot;
the right operand's instructions live only in block 1, which is reached
exactly when the left operand is nonzero (`&&`) resp. zero (`||`); hence
for `0 && e` the executed path is entry → false → merge and for `1 || e`
it is entry → true → merge, and no instruction lowered from `e` lies on
the executed path. -/
theorem c7_short_circuit (lhsCode rhsCode : List Instr) (r : Nat) :
    (execBlocks (andCfg lhsCode rhsCode) (boolEnv 0 r) 8 0 = [0, 3, 4]
      ∧ execInstrs (andCfg lhsCode rhsCode) (boolEnv 0 r) 8 0
          = Instr.alloca 0 :: (lhsCode ++ [Instr.storeImm 0 0 0, Instr.loadSlot 0]))
    ∧ (execBlocks (orCfg lhsCode rhsCode) (boolEnv 1 r) 8 0 = [0, 2, 4]
      ∧ execInstrs (orCfg lhsCode rhsCode) (boolEnv 1 r) 8 0
          = Instr.alloca 0 :: (lhsCode ++ [Instr.storeImm 0 0 1, Instr.loadSlot 0]))
    ∧ (∀ l, ((execBlocks (andCfg lhsCode rhsCode) (boolEnv l r) 8 0).contains 1)
          = (l != 0))
    ∧ (∀ l, ((execBlocks (orCfg lhsCode rhsCode) (boolEnv l r) 8 0).contains 1)
          = (l == 0))
    ∧ (andCfg lhsCode rhsCode).get? 1 = some ⟨rhsCode, Term.condBr 1 2 3⟩
    ∧ (orCfg lhsCode rhsCode).get? 1 = some ⟨rhsCode, Term.condBr 1 2 3⟩ := by
  refine ⟨⟨rfl, rfl⟩, ⟨rfl, rfl⟩, ?_, ?_, rfl, rfl⟩
  · intro l; cases l <;> rfl
  · intro l; cases l <;> rfl

/-! ## C4: the `strftime` call -/

/-- C4, counterexample: the `strftime` branch does not emit a
`perf_event_output` at all, and the record it fills starts with the
format id (stored at field 0), not with an action discriminator: at
`strftime_id_ = 0` with an empty ts lowering the emission is exactly
`[alloca, store fmt_id at field 0, store ts at field 1]`. -/
theorem c4_strftime_counterexample :
    (strftimeEmit 0 []).1
      = [Instr.alloca 0, Instr.storeImm 0 0 0, Instr.storeSym 0 1 "ts"]
    ∧ callsPerfOutput (strftimeEmit 0 []).1 = false := by
  decide

/-- C4 (amended): lowering `strftime(fmt_id, ts)` allocates a two-field
stack record laid out as `{u64 fmt_id, u64 ts}` (no action
discriminator), stores the per-probe `strftime_id_` at field 0 and the
lowered `ts` at field 1, increments `strftime_id_` by one, and leaves
the record buffer as the expression value instead of calling
`perf_event_output` (the record is emitted later by whichever async
emitter consumes it, e.g. `printf`). -/
theorem c4_strftime_amended (id : Nat) (tsCode : List Instr)
    (h : callsPerfOutput tsCode = false) :
    (strftimeEmit id tsCode).1
      = Instr.alloca 0 :: Instr.storeImm 0 0 id ::
          (tsCode ++ [Instr.storeSym 0 1 "ts"])
    ∧ callsPerfOutput (strftimeEmit id tsCode).1 = false
    ∧ (strftimeEmit id tsCode).2.1 = id + 1
    ∧ (strftimeEmit id tsCode).2.2 = 0 := by
  refine ⟨rfl, ?_, rfl, rfl⟩
  simp only [strftimeEmit, callsPerfOutput, List.any_append, List.any_cons,
    List.any_nil, Bool.or_false, Bool.false_or]
  exact h

theorem c4_strftime_amended_witness :
    (strftimeEmit 3 [Instr.code 0]).1
      = [Instr.alloca 0, Instr.storeImm 0 0 3, Instr.code 0,
         Instr.storeSym 0 1 "ts"]
    ∧ callsPerfOutput (strftimeEmit 3 [Instr.code 0]).1 = false := by
  have h := c4_strftime_amended 3 [Instr.code 0] (by decide)
  exact ⟨h.1, h.2.1⟩

/-! ## C6: integer binary operations -/

theorem b2n_le_one (b : Bool) : b2n b ≤ 1 := by
  cases b <;> simp [b2n]

theorem intCast64_lt (signed : Bool) (w v : Nat) (hv : v < 2 ^ w)
    (hw : w ≤ 64) : intCast64 signed w v < 2 ^ 64 := by
  cases signed
  · simpa [intCast64] using lt_of_lt_of_le hv (Nat.pow_le_pow_right (by norm_num) hw)
  · simpa [intCast64] using wrap64_lt (toSignedW w v)

/-- C6: for every binary operation on integer operands, both operands
are promoted to 64 bits with their own signedness, the ordered
comparisons use the signed variant exactly when both operand types are
signed, modulo is always lowered as an unsigned remainder, and the
result is a zero-extended 64-bit pattern (comparison results are 0 or 1,
never a sign-extended −1). -/
theorem c6_binop (op : BinOp) (l r : Operand)
    (hl : l.bits < 2 ^ l.width) (hr : r.bits < 2 ^ r.width)
    (hlw : l.width ≤ 64) (hrw : r.width ≤ 64) :
    binopLower op l r = binopClaimSpec op l r
    ∧ binopLower op l r < 2 ^ 64
    ∧ (BinOp.isCompare op = true → binopLower op l r ≤ 1) := by
  have hL : intCast64 l.signed l.width l.bits < 2 ^ 64 :=
    intCast64_lt _ _ _ hl hlw
  have hR : intCast64 r.signed r.width r.bits < 2 ^ 64 :=
    intCast64_lt _ _ _ hr hrw
  refine ⟨?_, ?_, ?_⟩
  · cases op with
    | eq =>
        by_cases h : intCast64 l.signed l.width l.bits
            = intCast64 r.signed r.width r.bits <;>
          simp [binopLower, binopClaimSpec, b2n, h]
    | ne =>
        by_cases h : intCast64 l.signed l.width l.bits
            = intCast64 r.signed r.width r.bits <;>
          simp [binopLower, binopClaimSpec, b2n, h]
    | le =>
        cases hds : l.signed && r.signed <;>
          simp [binopLower, binopClaimSpec, b2n, hds, sle64, ule64,
            decide_eq_true_eq]
    | ge =>
        cases hds : l.signed && r.signed <;>
          simp [binopLower, binopClaimSpec, b2n, hds, sge64, uge64,
            decide_eq_true_eq]
    | lt =>
        cases hds : l.signed && r.signed <;>
          simp [binopLower, binopClaimSpec, b2n, hds, slt64, ult64,
            decide_eq_true_eq]
    | gt =>
        cases hds : l.signed && r.signed <;>
          simp [binopLower, binopClaimSpec, b2n, hds, sgt64, ugt64,
            decide_eq_true_eq]
    | left => rfl
    | right => rfl
    | plus => rfl
    | minus => rfl
    | mul => rfl
    | div => rfl
    | mod => rfl
    | band => rfl
    | bor => rfl
    | bxor => rfl
  · cases op <;>
      first
        | exact lt_of_le_of_lt (b2n_le_one _) (by norm_num)
        | exact Nat.mod_lt _ (by norm_num)
        | exact wrap64_lt _
        | exact lt_of_le_of_lt (Nat.mod_le _ _) hL
        | exact lt_of_le_of_lt
            (le_trans (Nat.le_of_eq (Nat.shiftRight_eq_div_pow _ _))
              (Nat.div_le_self _ _)) hL
        | exact lt_of_le_of_lt (Nat.div_le_self _ _) hL
        | exact lt_of_le_of_lt Nat.and_le_left hL
        | exact Nat.or_lt_two_pow hL hR
        | exact Nat.xor_lt_two_pow hL hR
  · intro hc
    cases op <;>
      first
        | exact b2n_le_one _
        | simp [BinOp.isCompare] at hc

theorem c6_binop_witness :
    binopLower BinOp.lt ⟨true, 32, 5⟩ ⟨true, 32, 7⟩
      = binopClaimSpec BinOp.lt ⟨true, 32, 5⟩ ⟨true, 32, 7⟩
    ∧ binopLower BinOp.lt ⟨true, 32, 5⟩ ⟨true, 32, 7⟩ < 2 ^ 64 := by
  have h := c6_binop BinOp.lt ⟨true, 32, 5⟩ ⟨true, 32, 7⟩ (by norm_num)
    (by norm_num) (by norm_num) (by norm_num)
  exact ⟨h.1, h.2.1⟩

/-! ## C5: per-probe id reset during wildcard expansion -/

theorem resetIds_eq (snap c : Counters) : resetIds snap c = snap := rfl

theorem runUsdtLocations_mem (gen : Counters → Counters) (snap : Counters) :
    ∀ (n : Nat) (c b : Counters),
      b ∈ (runUsdtLocations gen snap n c).2 → b = snap := by
  intro n
  induction n with
  | zero => intro c b hb; simp [runUsdtLocations] at hb
  | succ k ih =>
      intro c b hb
      simp only [runUsdtLocations, List.mem_cons] at hb
      rcases hb with hb | hb
      · rw [hb, resetIds_eq]
      · exact ih _ b hb

theorem runMatch_mem (gen : Counters → Counters) (snap c : Counters)
    (m : MatchSpec) (b : Counters) (hb : b ∈ (runMatch gen snap c m).2) :
    b = snap := by
  cases m with
  | plain =>
      simp only [runMatch, List.mem_singleton] at hb
      rw [hb, resetIds_eq]
  | usdt n => exact runUsdtLocations_mem gen snap n _ b hb

theorem runMatches_mem (gen : Counters → Counters) (snap : Counters) :
    ∀ (ms : List MatchSpec) (c b : Counters),
      b ∈ (runMatches gen snap c ms).2 → b = snap := by
  intro ms
  induction ms with
  | nil => intro c b hb; simp [runMatches] at hb
  | cons m rest ih =>
      intro c b hb
      simp only [runMatches, List.mem_append] at hb
      rcases hb with hb | hb
      · exact runMatch_mem gen snap c m b hb
      · exact ih _ b hb

theorem runAttachPoints_mem (gen : Counters → Counters) (snap : Counters) :
    ∀ (aps : List (List MatchSpec)) (c b : Counters),
      b ∈ (runAttachPoints gen snap c aps).2 → b = snap := by
  intro aps
  induction aps with
  | nil => intro c b hb; simp [runAttachPoints] at hb
  | cons ms rest ih =>
      intro c b hb
      simp only [runAttachPoints, List.mem_append] at hb
      rcases hb with hb | hb
      · exact runMatches_mem gen snap ms c b hb
      · exact ih _ b hb

/-- C5: during wildcard expansion the eight per-probe counters
(`printf_id`, `cat_id`, `system_id`, `time_id`, `strftime_id`,
`join_id`, `helper_error_id`, `non_map_print_id`) are restored to the
snapshot taken before the expansion loop started, before every
`generateProbe` call — both per concrete match and per USDT location —
so every generated program starts from the identical counter baseline
`c0`, whatever effect `gen` each generation has on the counters. -/
theorem c5_reset_ids (gen : Counters → Counters) (c0 : Counters)
    (aps : List (List MatchSpec)) (b : Counters)
    (hb : b ∈ (runProbeExpansion gen c0 aps).2) : b = c0 :=
  runAttachPoints_mem gen c0 aps c0 b hb

theorem c5_reset_ids_witness :
    (⟨1, 2, 3, 4, 5, 6, 7, 8⟩ : Counters) = ⟨1, 2, 3, 4, 5, 6, 7, 8⟩ :=
  c5_reset_ids (fun c => { c with printfId := c.printfId + 1 })
    ⟨1, 2, 3, 4, 5, 6, 7, 8⟩ [[MatchSpec.plain, MatchSpec.usdt 2]]
    ⟨1, 2, 3, 4, 5, 6, 7, 8⟩ (by decide)

/-! ## C9: section naming -/

theorem alookup_aset_self :
    ∀ (m : List (String × Nat)) (x : String) (n : Nat),
      alookup (aset m x n) x = some n := by
  intro m x n
  induction m with
  | nil => simp [aset, alookup]
  | cons p rest ih =>
      obtain ⟨y, v⟩ := p
      by_cases h : y = x
      · subst h; simp [aset, alookup]
      · simp [aset, alookup, h, ih]

theorem alookup_aset_ne :
    ∀ (m : List (String × Nat)) (x y : String) (n : Nat), y ≠ x →
      alookup (aset m x n) y = alookup m y := by
  intro m x y n h
  induction m with
  | nil =>
      have hxy : ¬ x = y := fun hx => h hx.symm
      simp [aset, alookup, hxy]
  | cons p rest ih =>
      obtain ⟨k, v⟩ := p
      by_cases hk : k = x
      · subst hk
        have hky : ¬ k = y := fun hy => h hy.symm
        simp [aset, alookup, hky]
      · by_cases hky : k = y
        · subst hky
          simp [aset, alookup, hk]
        · simp [aset, alookup, hk, hky, ih]

theorem generateProbeSection_step (m : IndexMap) (cnt : String → Nat)
    (pn sn : String) (h : SecInv m cnt) :
    (generateProbeSection m pn sn).1 = getSectionNameForProbe sn (cnt pn + 1)
    ∧ SecInv (generateProbeSection m pn sn).2
        (fun name => if name = pn then cnt pn + 1 else cnt name) := by
  have hpn := h pn
  by_cases h0 : cnt pn = 0
  · rw [h0, if_pos rfl] at hpn
    constructor
    · simp [generateProbeSection, getNextIndexForProbe, hpn,
        alookup_aset_self, h0]
    · intro name
      by_cases hn : name = pn
      · subst hn
        simp [generateProbeSection, getNextIndexForProbe, hpn,
          alookup_aset_self, h0]
      · simp only [generateProbeSection, getNextIndexForProbe, hpn,
          alookup_aset_self, Option.getD_some]
        rw [alookup_aset_ne _ _ _ _ hn, alookup_aset_ne _ _ _ _ hn]
        simpa [hn] using h name
  · rw [if_neg h0] at hpn
    constructor
    · simp [generateProbeSection, getNextIndexForProbe, hpn]
    · intro name
      by_cases hn : name = pn
      · subst hn
        simp [generateProbeSection, getNextIndexForProbe, hpn,
          alookup_aset_self]
      · simp only [generateProbeSection, getNextIndexForProbe, hpn,
          Option.getD_some]
        rw [alookup_aset_ne _ _ _ _ hn]
        simpa [hn] using h name

theorem countName_cons (p : String × String) (l : List (String × String))
    (q : String) :
    countName (p :: l) q = (if p.1 = q then 1 else 0) + countName l q := by
  by_cases h : p.1 = q <;> simp [countName, List.filter_cons, h, Nat.add_comm]

theorem runSections_spec :
    ∀ (calls : List (String × String)) (m : IndexMap) (cnt : String → Nat),
      SecInv m cnt →
      ∀ k, k < calls.length →
        (runSections m calls).1.getD k ("")
          = getSectionNameForProbe (calls.getD k ("", "")).2
              (cnt (calls.getD k ("", "")).1
                + countName (List.take k calls) (calls.getD k ("", "")).1
                + 1) := by
  intro calls
  induction calls with
  | nil => intro m cnt h k hk; simp at hk
  | cons c rest ih =>
      obtain ⟨pn, sn⟩ := c
      intro m cnt h k hk
      obtain ⟨hstep1, hstep2⟩ := generateProbeSection_step m cnt pn sn h
      cases k with
      | zero =>
          simpa [runSections, countName] using hstep1
      | succ k' =>
          have hk' : k' < rest.length := by
            simp only [List.length_cons] at hk
            omega
          have hrec := ih (generateProbeSection m pn sn).2 _ hstep2 k' hk'
          simp only [runSections, List.getD_cons_succ, List.take_succ_cons,
            countName_cons]
          rw [hrec]
          congr 1
          by_cases hq : (rest.getD k' ("", "")).1 = pn
          · simp only [hq, eq_self_iff_true, if_true]
            omega
          · have hq2 : ¬ pn = (rest.getD k' ("", "")).1 := fun hx => hq hx.symm
            simp only [if_neg hq, if_neg hq2]
            omega

/-- C9: every emitted program's section name is
`"s_" ++ <resolved section base> ++ "_" ++ <index>` where the index is a
per-probe-name counter: the k-th program generated under a given probe
name gets index (number of earlier programs under that name) + 1, i.e.
indexes 1, 2, 3, … in generation order. -/
theorem c9_section_names (calls : List (String × String)) (k : Nat)
    (hk : k < calls.length) :
    (runSections [] calls).1.getD k ("")
      = "s_" ++ (calls.getD k ("", "")).2 ++ "_"
          ++ toString (countName (List.take k calls) (calls.getD k ("", "")).1
                + 1) := by
  have h0 : SecInv [] (fun _ => 0) := by intro name; simp [alookup]
  have h := runSections_spec calls [] (fun _ => 0) h0 k hk
  simpa [getSectionNameForProbe] using h

theorem c9_section_names_witness :
    (runSections []
        [("usdt:libfoo:probe1", "usdt:libfoo:probe1_loc0"),
         ("usdt:libfoo:probe1", "usdt:libfoo:probe1_loc1")]).1.getD 1 ""
      = "s_usdt:libfoo:probe1_loc1_2" := by
  have h := c9_section_names
      [("usdt:libfoo:probe1", "usdt:libfoo:probe1_loc0"),
       ("usdt:libfoo:probe1", "usdt:libfoo:probe1_loc1")] 1 (by norm_num)
  rw [h]
  rfl

/-! ## C2: lifetime balance -/

theorem boolEnv_eq_envB (l r : Nat) : boolEnv l r = envB (l != 0) (r != 0) := rfl

theorem andExec_true_true (lhsCode rhsCode : List Instr) :
    execInstrs (andCfg lhsCode rhsCode) (envB true true) 8 0
      = Instr.alloca 0 ::
          (lhsCode ++ (rhsCode ++ [Instr.storeImm 0 0 1, Instr.loadSlot 0])) := rfl

theorem andExec_true_false (lhsCode rhsCode : List Instr) :
    execInstrs (andCfg lhsCode rhsCode) (envB true false) 8 0
      = Instr.alloca 0 ::
          (lhsCode ++ (rhsCode ++ [Instr.storeImm 0 0 0, Instr.loadSlot 0])) := rfl

theorem andExec_false (lhsCode rhsCode : List Instr) (b2 : Bool) :
    execInstrs (andCfg lhsCode rhsCode) (envB false b2) 8 0
      = Instr.alloca 0 ::
          (lhsCode ++ [Instr.storeImm 0 0 0, Instr.loadSlot 0]) := rfl

theorem orExec_true (lhsCode rhsCode : List Instr) (b2 : Bool) :
    execInstrs (orCfg lhsCode rhsCode) (envB true b2) 8 0
      = Instr.alloca 0 ::
          (lhsCode ++ [Instr.storeImm 0 0 1, Instr.loadSlot 0]) := rfl

theorem orExec_false_true (lhsCode rhsCode : List Instr) :
    execInstrs (orCfg lhsCode rhsCode) (envB false true) 8 0
      = Instr.alloca 0 ::
          (lhsCode ++ (rhsCode ++ [Instr.storeImm 0 0 1, Instr.loadSlot 0])) := rfl

theorem orExec_false_false (lhsCode rhsCode : List Instr) :
    execInstrs (orCfg lhsCode rhsCode) (envB false false) 8 0
      = Instr.alloca 0 ::
          (lhsCode ++ (rhsCode ++ [Instr.storeImm 0 0 0, Instr.loadSlot 0])) := rfl

/-- C2, counterexample: on the executed path of `1 && 1` (empty operand
lowerings) the `&&_result` stack slot is allocated but there is no
lifetime-end for it anywhere on the path, contradicting "every stack
allocation is matched by exactly one lifetime-end on every control-flow
path ... in particular ... the result slot allocated when lowering
logical && / ||". -/
theorem c2_lifetime_counterexample :
    Instr.alloca 0 ∈ execInstrs (andCfg [] []) (boolEnv 1 1) 8 0
    ∧ (execInstrs (andCfg [] []) (boolEnv 1 1) 8 0).count
        (Instr.lifetimeEnd 0) = 0 := by
  decide

/-- C2 (amended): the `&&` / `||` result slot and the stack slots
created by variable assignments receive *no* lifetime-end on any
control-flow path (they stay live to the end of the program); the
balance does hold for the temporaries of the lowerings that end them
explicitly, e.g. the `min` aggregation ends its key and value slots
exactly once on every path (both branches flow through `min.lt`). -/
theorem c2_lifetime_amended (lhsCode rhsCode rhs2 : List Instr)
    (l r v old : Nat) (s : GenSt) (x : String)
    (hl : Instr.lifetimeEnd 0 ∉ lhsCode) (hr : Instr.lifetimeEnd 0 ∉ rhsCode)
    (h2 : ∀ sl, Instr.lifetimeEnd sl ∉ rhs2) :
    (execInstrs (andCfg lhsCode rhsCode) (boolEnv l r) 8 0).count
        (Instr.lifetimeEnd 0) = 0
    ∧ (execInstrs (orCfg lhsCode rhsCode) (boolEnv l r) 8 0).count
        (Instr.lifetimeEnd 0) = 0
    ∧ (∀ sl, Instr.lifetimeEnd sl ∉ (assignVar s x rhs2).2)
    ∧ (minExec v old).count (Instr.lifetimeEnd 0) = 1
    ∧ (minExec v old).count (Instr.lifetimeEnd 1) = 1 := by
  have hl0 := List.count_eq_zero.mpr hl
  have hr0 := List.count_eq_zero.mpr hr
  refine ⟨?_, ?_, ?_, ?_, ?_⟩
  · rw [boolEnv_eq_envB]
    cases h1 : (l != 0) <;> cases h2b : (r != 0) <;>
      simp [andExec_true_true, andExec_true_false, andExec_false,
        List.count_append, List.count_cons, hl0, hr0]
  · rw [boolEnv_eq_envB]
    cases h1 : (l != 0) <;> cases h2b : (r != 0) <;>
      simp [orExec_true, orExec_false_true, orExec_false_false,
        List.count_append, List.count_cons, hl0, hr0]
  · intro sl
    cases hx : alookup s.vars x <;>
      simp [assignVar, hx, List.mem_append, h2 sl]
  · rw [minExec_eq]
    cases h : sge64 (minInverted v) old <;> decide
  · rw [minExec_eq]
    cases h : sge64 (minInverted v) old <;> decide

theorem c2_lifetime_amended_witness :
    (execInstrs (andCfg [] [Instr.code 3]) (boolEnv 1 1) 8 0).count
        (Instr.lifetimeEnd 0) = 0
    ∧ (minExec 7 0).count (Instr.lifetimeEnd 0) = 1 := by
  have h := c2_lifetime_amended [] [Instr.code 3] [] 1 1 7 0 ⟨[], 0⟩ ("x")
    (by simp) (by simp) (by intro sl; simp)
  exact ⟨h.1, h.2.2.2.1⟩

/-! ## C10: variable slots -/

theorem runVarOp_fresh_mono (s : GenSt) (op : VarOp) :
    s.fresh ≤ (runVarOp s op).1.fresh := by
  cases op with
  | assign x =>
      cases hx : alookup s.vars x <;> simp [runVarOp, assignVar, hx]
  | read x => simp [runVarOp]

theorem runVarOps_fresh_mono :
    ∀ (ops : List VarOp) (s : GenSt), s.fresh ≤ (runVarOps s ops).1.fresh := by
  intro ops
  induction ops with
  | nil => intro s; simp [runVarOps]
  | cons op rest ih =>
      intro s
      calc s.fresh ≤ (runVarOp s op).1.fresh := runVarOp_fresh_mono s op
        _ ≤ (runVarOps (runVarOp s op).1 rest).1.fresh := ih _
        _ = (runVarOps s (op :: rest)).1.fresh := by simp [runVarOps]

theorem runVarOp_preserve (s : GenSt) (op : VarOp) (x : String) (v : Nat)
    (h : alookup s.vars x = some v) :
    alookup (runVarOp s op).1.vars x = some v := by
  cases op with
  | read y => simpa [runVarOp] using h
  | assign y =>
      cases hy : alookup s.vars y with
      | some w => simpa [runVarOp, assignVar, hy] using h
      | none =>
          have hxy : ¬ y = x := by
            intro he
            rw [he, h] at hy
            cases hy
          simpa [runVarOp, assignVar, hy, alookup, hxy] using h

theorem runVarOps_preserve :
    ∀ (ops : List VarOp) (s : GenSt) (x : String) (v : Nat),
      alookup s.vars x = some v →
      alookup (runVarOps s ops).1.vars x = some v := by
  intro ops
  induction ops with
  | nil => intro s x v h; simpa [runVarOps] using h
  | cons op rest ih =>
      intro s x v h
      have h1 := runVarOp_preserve s op x v h
      simpa [runVarOps] using ih (runVarOp s op).1 x v h1

theorem runVarOp_assign_none (s : GenSt) (y : String)
    (hy : alookup s.vars y = none) :
    runVarOp s (VarOp.assign y)
      = (⟨(y, s.fresh) :: s.vars, s.fresh + 1⟩,
         [Instr.allocaInit s.fresh, Instr.storeSym s.fresh 0 "expr"]) := by
  simp [runVarOp, assignVar, hy]

theorem runVarOp_assign_some (s : GenSt) (y : String) (v : Nat)
    (hy : alookup s.vars y = some v) :
    runVarOp s (VarOp.assign y) = (s, [Instr.storeSym v 0 "expr"]) := by
  simp [runVarOp, assignVar, hy]

theorem runVarOp_read_none (s : GenSt) (y : String)
    (hy : alookup s.vars y = none) :
    runVarOp s (VarOp.read y) = (s, []) := by
  simp [runVarOp, readVar, hy]

theorem runVarOp_read_some (s : GenSt) (y : String) (v : Nat)
    (hy : alookup s.vars y = some v) :
    runVarOp s (VarOp.read y) = (s, [Instr.loadSlot v]) := by
  simp [runVarOp, readVar, hy]

theorem runVarOp_range (lo : Nat) (s : GenSt) (op : VarOp)
    (hlo : lo ≤ s.fresh) (h : TableBelow lo s) :
    TableBelow lo (runVarOp s op).1
    ∧ ∀ a ∈ slotsOf (runVarOp s op).2, lo ≤ a ∧ a < (runVarOp s op).1.fresh := by
  cases op with
  | read y =>
      cases hy : alookup s.vars y with
      | none =>
          rw [runVarOp_read_none s y hy]
          exact ⟨h, by intro a ha; simp [slotsOf] at ha⟩
      | some w =>
          rw [runVarOp_read_some s y w hy]
          refine ⟨h, ?_⟩
          intro a ha
          simp [slotsOf, Instr.slots] at ha
          subst ha
          exact h y a hy
  | assign y =>
      cases hy : alookup s.vars y with
      | none =>
          rw [runVarOp_assign_none s y hy]
          constructor
          · intro z w hz
            simp only at hz
            rw [alookup] at hz
            by_cases hzy : y = z
            · rw [if_pos hzy] at hz
              injection hz with hw
              subst hw
              exact ⟨hlo, Nat.lt_succ_self _⟩
            · rw [if_neg hzy] at hz
              have hw := h z w hz
              exact ⟨hw.1, Nat.lt_succ_of_lt hw.2⟩
          · intro a ha
            simp [slotsOf, Instr.slots] at ha
            subst ha
            exact ⟨hlo, Nat.lt_succ_self _⟩
      | some w =>
          rw [runVarOp_assign_some s y w hy]
          refine ⟨h, ?_⟩
          intro a ha
          simp [slotsOf, Instr.slots] at ha
          subst ha
          exact h y a hy

theorem runVarOps_range (lo : Nat) :
    ∀ (ops : List VarOp) (s : GenSt), lo ≤ s.fresh → TableBelow lo s →
      TableBelow lo (runVarOps s ops).1
      ∧ ∀ a ∈ slotsOf (runVarOps s ops).2,
          lo ≤ a ∧ a < (runVarOps s ops).1.fresh := by
  intro ops
  induction ops with
  | nil =>
      intro s hlo h
      refine ⟨fun z w hz => h z w (by simpa [runVarOps] using hz), ?_⟩
      intro a ha
      simp [runVarOps, slotsOf] at ha
  | cons op rest ih =>
      intro s hlo h
      obtain ⟨h1, h2⟩ := runVarOp_range lo s op hlo h
      have hlo1 : lo ≤ (runVarOp s op).1.fresh :=
        le_trans hlo (runVarOp_fresh_mono s op)
      obtain ⟨h3, h4⟩ := ih (runVarOp s op).1 hlo1 h1
      constructor
      · intro z w hz
        exact h3 z w (by simpa [runVarOps] using hz)
      · intro a ha
        simp only [runVarOps, slotsOf, List.flatMap_append, List.mem_append]
          at ha
        have hfin : (runVarOps s (op :: rest)).1.fresh
            = (runVarOps (runVarOp s op).1 rest).1.fresh := by
          simp [runVarOps]
        rcases ha with ha | ha
        · have := h2 a (by simpa [slotsOf] using ha)
          refine ⟨this.1, ?_⟩
          rw [hfin]
          exact lt_of_lt_of_le this.2 (runVarOps_fresh_mono rest _)
        · have := h4 a (by simpa [slotsOf] using ha)
          rw [hfin]
          exact this

theorem generateProbeVars_range (s : GenSt) (p : ProbeAst)
    (hp : p.predOps = []) :
    s.fresh ≤ (generateProbeVars s p).1.fresh
    ∧ ∀ a ∈ slotsOf (generateProbeVars s p).2,
        s.fresh ≤ a ∧ a < (generateProbeVars s p).1.fresh := by
  have h0 : TableBelow s.fresh (⟨[], s.fresh⟩ : GenSt) := by
    intro x v hx
    simp [alookup] at hx
  obtain ⟨h1, h2⟩ := runVarOps_range s.fresh p.bodyOps ⟨[], s.fresh⟩ le_rfl h0
  have hmono : (s.fresh : Nat) ≤ (runVarOps (⟨[], s.fresh⟩ : GenSt) p.bodyOps).1.fresh :=
    runVarOps_fresh_mono p.bodyOps ⟨[], s.fresh⟩
  constructor
  · simpa [generateProbeVars, hp, runVarOps] using hmono
  · intro a ha
    have ha2 : a ∈ slotsOf (runVarOps (⟨[], s.fresh⟩ : GenSt) p.bodyOps).2 := by
      simpa [generateProbeVars, hp, runVarOps, slotsOf] using ha
    simpa [generateProbeVars, hp, runVarOps] using h2 a ha2

theorem generatePrograms_lower :
    ∀ (progs : List ProbeAst) (s : GenSt),
      (∀ p ∈ progs, p.predOps = []) →
      s.fresh ≤ (generateProgramsVars s progs).1.fresh
      ∧ ∀ k a, a ∈ slotsOf ((generateProgramsVars s progs).2.getD k []) →
          s.fresh ≤ a := by
  intro progs
  induction progs with
  | nil =>
      intro s _
      refine ⟨le_rfl, ?_⟩
      intro k a ha
      simp [generateProgramsVars, slotsOf] at ha
  | cons p ps ih =>
      intro s hpred
      have hp : p.predOps = [] := hpred p (by simp)
      obtain ⟨hm, hr⟩ := generateProbeVars_range s p hp
      obtain ⟨ihm, ihr⟩ := ih (generateProbeVars s p).1
        (fun q hq => hpred q (by simp [hq]))
      constructor
      · calc s.fresh ≤ (generateProbeVars s p).1.fresh := hm
          _ ≤ (generateProgramsVars (generateProbeVars s p).1 ps).1.fresh := ihm
          _ = (generateProgramsVars s (p :: ps)).1.fresh := by
              simp [generateProgramsVars]
      · intro k a ha
        cases k with
        | zero =>
            have ha0 : a ∈ slotsOf (generateProbeVars s p).2 := by
              simpa [generateProgramsVars] using ha
            exact (hr a ha0).1
        | succ k' =>
            have ha1 : a ∈ slotsOf
                ((generateProgramsVars (generateProbeVars s p).1 ps).2.getD k' []) := by
              simpa [generateProgramsVars] using ha
            exact le_trans hm (ihr k' a ha1)

theorem generatePrograms_disjoint :
    ∀ (progs : List ProbeAst) (s : GenSt) (i j : Nat),
      (∀ p ∈ progs, p.predOps = []) → i < j →
      ∀ a, a ∈ slotsOf ((generateProgramsVars s progs).2.getD i []) →
        a ∉ slotsOf ((generateProgramsVars s progs).2.getD j []) := by
  intro progs
  induction progs with
  | nil =>
      intro s i j _ _ a ha
      simp [generateProgramsVars, slotsOf] at ha
  | cons p ps ih =>
      intro s i j hpred hij a ha hb
      have hp : p.predOps = [] := hpred p (by simp)
      have hpred' : ∀ q ∈ ps, q.predOps = [] := fun q hq => hpred q (by simp [hq])
      cases i with
      | zero =>
          cases j with
          | zero => exact absurd hij (lt_irrefl 0)
          | succ j' =>
              have ha0 : a ∈ slotsOf (generateProbeVars s p).2 := by
                simpa [generateProgramsVars] using ha
              have hupper := ((generateProbeVars_range s p hp).2 a ha0).2
              have hb1 : a ∈ slotsOf
                  ((generateProgramsVars (generateProbeVars s p).1 ps).2.getD j' []) := by
                simpa [generateProgramsVars] using hb
              have hlower := (generatePrograms_lower ps
                (generateProbeVars s p).1 hpred').2 j' a hb1
              omega
      | succ i' =>
          cases j with
          | zero => omega
          | succ j' =>
              have ha1 : a ∈ slotsOf
                  ((generateProgramsVars (generateProbeVars s p).1 ps).2.getD i' []) := by
                simpa [generateProgramsVars] using ha
              have hb1 : a ∈ slotsOf
                  ((generateProgramsVars (generateProbeVars s p).1 ps).2.getD j' []) := by
                simpa [generateProgramsVars] using hb
              exact ih (generateProbeVars s p).1 i' j' hpred' (by omega) a ha1 hb1

/-- C10: `generateProbe` clears `variables_` after lowering the
predicate and before lowering the body; therefore (given that the type
checker keeps variable expressions out of predicates) no script
variable's stack slot is ever used by two different emitted programs;
and within one program the first assignment to a variable allocates a
fresh initialized stack slot (`CreateAllocaBPFInit`) which every later
read and write of that variable reuses. -/
theorem c10_variable_slots :
    (∀ (progs : List ProbeAst) (s0 : GenSt) (i j : Nat),
        (∀ p ∈ progs, p.predOps = []) → i ≠ j →
        ∀ a, a ∈ slotsOf ((generateProgramsVars s0 progs).2.getD i []) →
          a ∉ slotsOf ((generateProgramsVars s0 progs).2.getD j []))
    ∧ (∀ (s : GenSt) (x : String), alookup s.vars x = none →
        runVarOp s (VarOp.assign x)
          = (⟨(x, s.fresh) :: s.vars, s.fresh + 1⟩,
             [Instr.allocaInit s.fresh, Instr.storeSym s.fresh 0 "expr"]))
    ∧ (∀ (s : GenSt) (x : String) (v : Nat) (ops : List VarOp),
        alookup s.vars x = some v →
          (runVarOp s (VarOp.read x)).2 = [Instr.loadSlot v]
          ∧ (runVarOp s (VarOp.assign x)).2 = [Instr.storeSym v 0 "expr"]
          ∧ alookup (runVarOps s ops).1.vars x = some v) := by
  refine ⟨?_, ?_, ?_⟩
  · intro progs s0 i j hpred hij a ha hb
    rcases Nat.lt_or_ge i j with hlt | hge
    · exact generatePrograms_disjoint progs s0 i j hpred hlt a ha hb
    · have hlt2 : j < i := lt_of_le_of_ne hge (fun he => hij he.symm)
      exact generatePrograms_disjoint progs s0 j i hpred hlt2 a hb ha
  · intro s x hx
    simp [runVarOp, assignVar, hx]
  · intro s x v ops hx
    exact ⟨by simp [runVarOp, readVar, hx],
      by simp [runVarOp, assignVar, hx],
      runVarOps_preserve ops s x v hx⟩

theorem c10_variable_slots_witness :
    0 ∉ slotsOf ((generateProgramsVars ⟨[], 0⟩
        [⟨[], [VarOp.assign ("x")]⟩, ⟨[], [VarOp.assign ("x")]⟩]).2.getD 1 []) :=
  c10_variable_slots.1
    [⟨[], [VarOp.assign ("x")]⟩, ⟨[], [VarOp.assign ("x")]⟩] ⟨[], 0⟩ 0 1
    (by decide) (by decide) 0 (by decide)

end BpftraceGen
